import Mathlib

/-!
Shallow embedding of the GPU-balanced-k-means core
(`raft::spatial::knn::detail::kmeans`, file modelled from the repository
sources) over exact rational arithmetic.  Floating-point values are
modelled by `ℚ`, `uint32_t` counters by `Nat` with explicit wrap-around
where the C++ arithmetic can wrap, and fallible or potentially
non-terminating code by `Option`/`Except` with explicit fuel.
-/

namespace RaftKMeans

/-- Distance metric enumeration.  The header defining
`raft::distance::DistanceType` is not part of the sources; the
constructors are modelled from the spec (three supported metrics plus
the similarity metrics referenced by the EM driver and further
representative rejected metrics). -/
inductive DistanceType where
  | L2Expanded
  | L2SqrtExpanded
  | L2Unexpanded
  | L2SqrtUnexpanded
  | L1
  | Linf
  | InnerProduct
  | CosineExpanded
  | CorrelationExpanded
  | JaccardExpanded
  | HellingerExpanded
  | Haversine
  | BrayCurtis
  | JensenShannon
  | HammingUnexpanded
  | KLDivergence
  | RusselRaoExpanded
  | LpUnexpanded
  | Canberra
  | DiceExpanded
  deriving DecidableEq, Repr

/-- Dot product of two rows (row-major matrices are lists of rows). -/
def dot (x y : List ℚ) : ℚ := (List.zipWith (fun a b => a * b) x y).sum

/-- Squared Euclidean distance between two rows. -/
def sqdist (x y : List ℚ) : ℚ := (List.zipWith (fun a b => (a - b) * (a - b)) x y).sum

/-- Sequential semantics of `argmin_along_rows_kernel` (ann_utils.cuh):
`min_idx` starts at `n_cols`, `min_val` at the largest float; scanning
left to right, the entry `a[j]` replaces the running minimum only when
it is strictly smaller (`min_val > a[j]`), so on ties the lowest column
index wins.  The shared-memory tree reduction of the kernel implements
the same lowest-index tie rule across threads. -/
def argminAux : List ℚ → Nat → Nat → WithTop ℚ → Nat
  | [], _, best, _ => best
  | x :: xs, k, best, bv =>
      if (x : WithTop ℚ) < bv then argminAux xs (k + 1) k (x : WithTop ℚ)
      else argminAux xs (k + 1) best bv

/-- Index of the first smallest element of a row; `a.length` when the row
is empty (the kernel initialisation `min_idx = n_cols`). -/
def argmin_along_rows (a : List ℚ) : Nat := argminAux a 0 a.length ⊤

/-- Reduction key of the nearest-center search, per metric.
For `InnerProduct` the code computes the distance matrix by `gemm` with
`alpha = -1`, i.e. the key is `-<center, x>`.  For the two L2 metrics the
fused primitive (`fusedL2NNMinReduce`, external to the sources; modelled
from the spec: fused distance + nearest-center reduction with the
lowest-index tie rule) reduces over squared L2 distances; the sqrt flag
of `L2SqrtExpanded` rescales the reported distance monotonically and
cannot change the selected index. -/
def metricDist (metric : DistanceType) (x c : List ℚ) : ℚ :=
  match metric with
  | .InnerProduct => -(dot c x)
  | _ => sqdist x c

/-- Row of reduction keys of one data point against all centers. -/
def distRow (metric : DistanceType) (centers : List (List ℚ)) (x : List ℚ) : List ℚ :=
  centers.map (fun c => metricDist metric x c)

/-- The three metrics accepted by `predict_float_core`. -/
def supportedMetric (m : DistanceType) : Bool :=
  m = .L2Expanded || m = .L2SqrtExpanded || m = .InnerProduct

/-- Modelled from the spec: the fused L2 nearest-center primitive
(external to the sources) returns for each row the index of the closest
center, ties resolved in favor of the lowest index. -/
def fusedL2NNArgmin (centers : List (List ℚ)) (x : List ℚ) : Nat :=
  argmin_along_rows (centers.map (fun c => sqdist x c))

/-- `predict_float_core`: label prediction for one (mini)batch.
The metric switch accepts `L2Expanded`/`L2SqrtExpanded` (fused path) and
`InnerProduct` (gemm + row-wise argmin); any other metric hits
`RAFT_FAIL` before any label is assigned. -/
def predict_float_core (metric : DistanceType) (centers : List (List ℚ))
    (dataset : List (List ℚ)) : Except String (List Nat) :=
  match metric with
  | .L2Expanded => .ok (dataset.map (fun x => fusedL2NNArgmin centers x))
  | .L2SqrtExpanded => .ok (dataset.map (fun x => fusedL2NNArgmin centers x))
  | .InnerProduct =>
      .ok (dataset.map (fun x => argmin_along_rows (distRow .InnerProduct centers x)))
  | _ => .error "The chosen distance metric is not supported"

/-- `calc_minibatch_size`: per-row memory is one 4-byte int for the two
fused L2 metrics and a full 4-byte float distance row otherwise, plus a
conversion buffer when the element type is not float; the 1 GiB budget
is divided by it, rounded up to a multiple of 64 and capped at
`n_rows`. -/
def calc_minibatch_size (n_clusters n_rows dim : Nat) (metric : DistanceType)
    (is_float : Bool) : Nat :=
  let nc := max 1 n_clusters
  let mem_per_row :=
    (if metric ≠ DistanceType.L2Expanded ∧ metric ≠ DistanceType.L2SqrtExpanded
      then 4 * nc else 4)
    + (if is_float then 0 else 4 * dim)
  let minibatch_size := 2 ^ 30 / mem_per_row
  let minibatch_size := 64 * ((minibatch_size + 63) / 64)
  min minibatch_size n_rows

/-- Minibatch loop of `predict`: process `mb` rows at a time; the fuel
argument bounds the number of batches (the C++ loop does not terminate
when the minibatch size is zero, which the model maps to running out of
fuel). -/
def predictGo (metric : DistanceType) (centers : List (List ℚ)) (mb : Nat) :
    Nat → List (List ℚ) → Except String (List Nat)
  | 0, _ => .ok []
  | _, [] => .ok []
  | fuel + 1, rows => do
      let batch ← predict_float_core metric centers (rows.take mb)
      let rest ← predictGo metric centers mb fuel (rows.drop mb)
      .ok (batch ++ rest)

/-- `predict`: split the dataset into minibatches and predict each batch
with `predict_float_core` (float instantiation, so no type-conversion
buffer is needed). -/
def predict (metric : DistanceType) (centers : List (List ℚ)) (dim : Nat)
    (dataset : List (List ℚ)) : Except String (List Nat) :=
  let mb := calc_minibatch_size centers.length dataset.length dim metric true
  predictGo metric centers mb dataset.length dataset

/-- Loop invariant of the sequential argmin scan: either no element beats
the incoming bound and the incoming best index survives, or the result
is the offset `k` plus the position of the first minimum. -/
lemma argminAux_spec (a : List ℚ) : ∀ (k best : Nat) (bv : WithTop ℚ),
    (argminAux a k best bv = best ∧ ∀ x ∈ a, bv ≤ (x : WithTop ℚ))
    ∨ ∃ j, ∃ hj : j < a.length, argminAux a k best bv = k + j
        ∧ ((a.get ⟨j, hj⟩ : ℚ) : WithTop ℚ) < bv
        ∧ (∀ i, (hi : i < a.length) → a.get ⟨j, hj⟩ ≤ a.get ⟨i, hi⟩)
        ∧ (∀ i, (hi : i < a.length) → i < j → a.get ⟨j, hj⟩ < a.get ⟨i, hi⟩) := by
  induction a with
  | nil =>
    intro k best bv
    left
    exact ⟨rfl, by simp⟩
  | cons x xs ih =>
    intro k best bv
    by_cases hx : (x : WithTop ℚ) < bv
    · rcases ih (k + 1) k (x : WithTop ℚ) with ⟨heq, hall⟩ | ⟨j, hj, heq, hlt, hmin, hstrict⟩
      · right
        refine ⟨0, by simp, ?_, ?_, ?_, ?_⟩
        · simpa [argminAux, hx] using heq
        · simpa using hx
        · rintro (_ | i) hi
          · simp
          · simp only [List.get_cons_succ, List.get_cons_zero]
            have := hall (xs.get ⟨i, by simpa using hi⟩) (xs.get_mem _ _)
            exact_mod_cast this
        · intro i hi hcon
          omega
      · right
        refine ⟨j + 1, by simpa using hj, ?_, ?_, ?_, ?_⟩
        · have : argminAux (x :: xs) k best bv = argminAux xs (k + 1) k (x : WithTop ℚ) := by
            simp [argminAux, hx]
          rw [this, heq]
          omega
        · exact lt_trans (by simpa using hlt) hx
        · rintro (_ | i) hi
          · simp only [List.get_cons_succ, List.get_cons_zero]
            exact le_of_lt (by exact_mod_cast hlt)
          · simpa using hmin i (by simpa using hi)
        · rintro (_ | i) hi hij
          · simp only [List.get_cons_succ, List.get_cons_zero]
            exact (by exact_mod_cast hlt)
          · simpa using hstrict i (by simpa using hi) (by omega)
    · rcases ih (k + 1) best bv with ⟨heq, hall⟩ | ⟨j, hj, heq, hlt, hmin, hstrict⟩
      · left
        constructor
        · simpa [argminAux, hx] using heq
        · intro y hy
          rcases List.mem_cons.mp hy with rfl | hy
          · exact le_of_not_lt hx
          · exact hall y hy
      · right
        refine ⟨j + 1, by simpa using hj, ?_, ?_, ?_, ?_⟩
        · have : argminAux (x :: xs) k best bv = argminAux xs (k + 1) best bv := by
            simp [argminAux, hx]
          rw [this, heq]
          omega
        · simpa using hlt
        · rintro (_ | i) hi
          · simp only [List.get_cons_succ, List.get_cons_zero]
            have hxb : bv ≤ (x : WithTop ℚ) := le_of_not_lt hx
            have : ((xs.get ⟨j, hj⟩ : ℚ) : WithTop ℚ) < (x : WithTop ℚ) := lt_of_lt_of_le hlt hxb
            exact le_of_lt (by exact_mod_cast this)
          · simpa using hmin i (by simpa using hi)
        · rintro (_ | i) hi hij
          · simp only [List.get_cons_succ, List.get_cons_zero]
            have hxb : bv ≤ (x : WithTop ℚ) := le_of_not_lt hx
            have : ((xs.get ⟨j, hj⟩ : ℚ) : WithTop ℚ) < (x : WithTop ℚ) := lt_of_lt_of_le hlt hxb
            exact_mod_cast this
          · simpa using hstrict i (by simpa using hi) (by omega)

/-- On a nonempty row, the scanned argmin is in range, attains the
minimum, and every column strictly before it holds a strictly larger
value (lowest index wins ties). -/
lemma argmin_along_rows_spec (a : List ℚ) (ha : a ≠ []) :
    ∃ hj : argmin_along_rows a < a.length,
      (∀ i, (hi : i < a.length) → a.get ⟨argmin_along_rows a, hj⟩ ≤ a.get ⟨i, hi⟩)
      ∧ ∀ i, (hi : i < a.length) → i < argmin_along_rows a →
          a.get ⟨argmin_along_rows a, hj⟩ < a.get ⟨i, hi⟩ := by
  rcases argminAux_spec a 0 a.length ⊤ with ⟨heq, hall⟩ | ⟨j, hj, heq, _, hmin, hstrict⟩
  · exfalso
    rcases List.exists_mem_of_ne_nil a ha with ⟨x, hx⟩
    have := hall x hx
    simp at this
  · have hres : argmin_along_rows a = j := by simpa [argmin_along_rows] using heq
    subst hres
    exact ⟨hj, hmin, hstrict⟩

lemma getD_of_lt {α : Type} (l : List α) (i : Nat) (hi : i < l.length) (d : α) :
    l.getD i d = l.get ⟨i, hi⟩ := by
  simp [List.getD_eq_getElem?_getD, List.getElem?_eq_getElem hi]

lemma getD_map_of_lt {α β : Type} (f : α → β) (l : List α) (i : Nat) (hi : i < l.length)
    (d : β) (e : α) : (l.map f).getD i d = f (l.getD i e) := by
  rw [getD_of_lt _ i (by simpa using hi) d, getD_of_lt l i hi e]
  simp

/-- On the three supported metrics, `predict_float_core` succeeds and
labels each row with the scanned argmin of its reduction-key row. -/
lemma predict_float_core_supported (metric : DistanceType)
    (hm : supportedMetric metric = true) (centers dataset : List (List ℚ)) :
    predict_float_core metric centers dataset
      = .ok (dataset.map (fun x => argmin_along_rows (distRow metric centers x))) := by
  cases metric <;> simp_all [supportedMetric, predict_float_core, fusedL2NNArgmin, distRow,
    metricDist]

/-- With positive minibatch size and enough fuel, the minibatch loop
succeeds on supported metrics and concatenates the per-batch labels. -/
lemma predictGo_spec (metric : DistanceType) (hm : supportedMetric metric = true)
    (centers : List (List ℚ)) (mb : Nat) (hmb : 0 < mb) :
    ∀ (fuel : Nat) (rows : List (List ℚ)), rows.length ≤ fuel →
      predictGo metric centers mb fuel rows
        = .ok (rows.map (fun x => argmin_along_rows (distRow metric centers x))) := by
  intro fuel
  induction fuel with
  | zero =>
    intro rows hrows
    have : rows = [] := List.eq_nil_of_length_eq_zero (Nat.le_zero.mp hrows)
    subst this
    rfl
  | succ fuel ih =>
    intro rows hrows
    match rows with
    | [] => rfl
    | r :: rs =>
      have h1 : predict_float_core metric centers ((r :: rs).take mb)
          = .ok (((r :: rs).take mb).map
              (fun x => argmin_along_rows (distRow metric centers x))) :=
        predict_float_core_supported metric hm centers _
      have h2 : predictGo metric centers mb fuel ((r :: rs).drop mb)
          = .ok (((r :: rs).drop mb).map
              (fun x => argmin_along_rows (distRow metric centers x))) := by
        apply ih
        have : ((r :: rs).drop mb).length = (r :: rs).length - mb := by
          simp
        omega
      show (do
        let batch ← predict_float_core metric centers ((r :: rs).take mb)
        let rest ← predictGo metric centers mb fuel ((r :: rs).drop mb)
        (.ok (batch ++ rest) : Except String (List Nat))) = _
      rw [h1, h2]
      show Except.ok _ = _
      rw [← List.map_append, List.take_append_drop]

/-- On a supported metric with at least one center (and few enough
centers that the minibatch size stays positive), `predict` succeeds and
returns the per-row argmin labels. -/
lemma predict_ok (metric : DistanceType) (centers : List (List ℚ)) (dim : Nat)
    (dataset : List (List ℚ))
    (hm : supportedMetric metric = true)
    (hK : centers ≠ [])
    (hKsmall : centers.length ≤ 2 ^ 28) :
    predict metric centers dim dataset
      = .ok (dataset.map (fun x => argmin_along_rows (distRow metric centers x))) := by
  rcases Nat.eq_zero_or_pos dataset.length with h0 | hN
  · have : dataset = [] := List.eq_nil_of_length_eq_zero h0
    subst this
    rfl
  have hmb : 0 < calc_minibatch_size centers.length dataset.length dim metric true := by
    have hnc1 : 1 ≤ max 1 centers.length := le_max_left _ _
    have hnc2 : max 1 centers.length ≤ 2 ^ 28 := by
      have : 1 ≤ centers.length := List.length_pos.mpr hK
      omega
    have hmem : ∀ m : Nat, 0 < m → m ≤ 2 ^ 30 →
        0 < min (64 * ((2 ^ 30 / m + 63) / 64)) dataset.length := by
      intro m hm hle
      have : 1 ≤ 2 ^ 30 / m := (Nat.one_le_div_iff hm).mpr hle
      omega
    unfold calc_minibatch_size
    by_cases hc : metric ≠ DistanceType.L2Expanded ∧ metric ≠ DistanceType.L2SqrtExpanded
    · simpa [hc] using hmem (4 * max 1 centers.length) (by omega) (by omega)
    · simpa [hc] using hmem 4 (by omega) (by omega)
  exact predictGo_spec metric hm centers _ hmb dataset.length dataset le_rfl

/-- C1: labels produced by `predict` are in `[0, K)`; each row's assigned
center minimises the metric's reduction key over all centers, and every
center of strictly lower index has a strictly larger key (ties go to the
lowest cluster index). -/
theorem C1_predict_nearest_center (metric : DistanceType) (centers : List (List ℚ))
    (dim : Nat) (dataset : List (List ℚ)) (labels : List Nat)
    (hm : supportedMetric metric = true)
    (hK : centers ≠ [])
    (hKsmall : centers.length ≤ 2 ^ 28)
    (hrun : predict metric centers dim dataset = .ok labels) :
    ∀ i, i < dataset.length →
      labels.getD i 0 < centers.length
      ∧ (∀ j, j < centers.length →
          metricDist metric (dataset.getD i []) (centers.getD (labels.getD i 0) [])
            ≤ metricDist metric (dataset.getD i []) (centers.getD j []))
      ∧ (∀ j, j < labels.getD i 0 →
          metricDist metric (dataset.getD i []) (centers.getD (labels.getD i 0) [])
            < metricDist metric (dataset.getD i []) (centers.getD j [])) := by
  intro i hi
  have hlab : labels = dataset.map (fun x => argmin_along_rows (distRow metric centers x)) := by
    rw [predict_ok metric centers dim dataset hm hK hKsmall] at hrun
    exact (Except.ok.inj hrun).symm
  subst hlab
  have hil : (dataset.map (fun x => argmin_along_rows (distRow metric centers x))).getD i 0
      = argmin_along_rows (distRow metric centers (dataset.getD i [])) :=
    getD_map_of_lt _ dataset i hi 0 []
  set x := dataset.getD i [] with hx
  have hrlen : (distRow metric centers x).length = centers.length := by
    simp [distRow]
  have hrne : distRow metric centers x ≠ [] := by
    intro hcon
    apply hK
    have hlen0 : centers.length = 0 := by
      rw [← hrlen, hcon]
      rfl
    exact List.eq_nil_of_length_eq_zero hlen0
  rcases argmin_along_rows_spec _ hrne with ⟨hjlt, hmin, hstrict⟩
  have hget : ∀ (j : Nat) (hj : j < centers.length),
      (distRow metric centers x).get ⟨j, by omega⟩ = metricDist metric x (centers.getD j []) := by
    intro j hj
    simp only [distRow, List.get_eq_getElem, List.getElem_map]
    rw [getD_of_lt centers j hj]
    simp [List.get_eq_getElem]
  rw [hil]
  set L := argmin_along_rows (distRow metric centers x) with hL
  have hLlt : L < centers.length := by omega
  refine ⟨hLlt, ?_, ?_⟩
  · intro j hj
    have := hmin j (by omega)
    rwa [hget L hLlt, hget j hj] at this
  · intro j hj
    have hjc : j < centers.length := lt_trans hj hLlt
    have := hstrict j (by omega) hj
    rwa [hget L hLlt, hget j hjc] at this

/-- C1 witness: a concrete two-center, two-row L2 run. -/
theorem C1_witness :
    supportedMetric .L2Expanded = true
    ∧ ([[(0 : ℚ)], [1]] : List (List ℚ)) ≠ []
    ∧ ([[(0 : ℚ)], [1]] : List (List ℚ)).length ≤ 2 ^ 28
    ∧ predict .L2Expanded [[(0 : ℚ)], [1]] 1 [[0], [5]] = .ok [0, 1]
    ∧ (∀ i, i < ([[(0 : ℚ)], [5]] : List (List ℚ)).length →
        ([0, 1] : List Nat).getD i 0 < ([[(0 : ℚ)], [1]] : List (List ℚ)).length
        ∧ (∀ j, j < ([[(0 : ℚ)], [1]] : List (List ℚ)).length →
            metricDist .L2Expanded (([[(0 : ℚ)], [5]] : List (List ℚ)).getD i [])
                ([[(0 : ℚ)], [1]].getD (([0, 1] : List Nat).getD i 0) [])
              ≤ metricDist .L2Expanded ([[(0 : ℚ)], [5]].getD i [])
                ([[(0 : ℚ)], [1]].getD j []))
        ∧ (∀ j, j < ([0, 1] : List Nat).getD i 0 →
            metricDist .L2Expanded ([[(0 : ℚ)], [5]].getD i [])
                ([[(0 : ℚ)], [1]].getD (([0, 1] : List Nat).getD i 0) [])
              < metricDist .L2Expanded ([[(0 : ℚ)], [5]].getD i [])
                ([[(0 : ℚ)], [1]].getD j []))) := by
  have hrun : predict .L2Expanded [[(0 : ℚ)], [1]] 1 [[0], [5]] = .ok [0, 1] := by
    rw [predict_ok .L2Expanded [[(0 : ℚ)], [1]] 1 [[0], [5]] rfl (by simp) (by norm_num)]
    norm_num [distRow, metricDist, sqdist, argmin_along_rows, argminAux,
      WithTop.coe_lt_top, WithTop.coe_lt_coe]
  exact ⟨rfl, by simp, by norm_num, hrun,
    C1_predict_nearest_center .L2Expanded [[(0 : ℚ)], [1]] 1 [[0], [5]] [0, 1]
      rfl (by simp) (by norm_num) hrun⟩

/-- C8: `predict_float_core` rejects every metric outside
{L2Expanded, L2SqrtExpanded, InnerProduct} with the unsupported-metric
error (so no labels are produced), and succeeds on those three. -/
theorem C8_unsupported_metric (metric : DistanceType) (centers dataset : List (List ℚ)) :
    (supportedMetric metric = false →
      predict_float_core metric centers dataset
        = .error "The chosen distance metric is not supported")
    ∧ (supportedMetric metric = true →
        ∃ ls, predict_float_core metric centers dataset = .ok ls) := by
  cases metric <;> simp [supportedMetric, predict_float_core]

/-- C8 witness: one rejected metric (L1) and one accepted metric
(inner product) at a concrete input. -/
theorem C8_witness :
    (supportedMetric .L1 = false
      ∧ predict_float_core .L1 [[(1 : ℚ)]] [[2]]
          = .error "The chosen distance metric is not supported")
    ∧ (supportedMetric .InnerProduct = true
      ∧ ∃ ls, predict_float_core .InnerProduct [[(1 : ℚ)]] [[2]] = .ok ls) :=
  ⟨⟨rfl, (C8_unsupported_metric .L1 [[(1 : ℚ)]] [[2]]).1 rfl⟩,
   ⟨rfl, (C8_unsupported_metric .InnerProduct [[(1 : ℚ)]] [[2]]).2 rfl⟩⟩

/-- Output of one aggregation pass: cluster centers and sizes. -/
structure Agg where
  centers : List (List ℚ)
  sizes : List Nat
  deriving DecidableEq, Repr

/-- Per-cluster, per-feature sum of the rows labelled `k`
(`reduce_rows_by_key` with the labels as keys). -/
def labelSum (dataset : List (List ℚ)) (labels : List Nat) (k d : Nat) : ℚ :=
  (((labels.zip dataset).filter (fun p => p.1 = k)).map (fun p => p.2.getD d 0)).sum

/-- `calc_centers_and_sizes`: when `reset_counters` is false the existing
centers are first multiplied feature-wise by the existing sizes
(`map_along_rows`), the per-label sums are accumulated on top
(`reduce_rows_by_key`) and the fresh per-label counts (`countLabels`)
are added to the existing sizes; finally every feature is divided by the
cluster's total weight, with a division-by-zero guard that leaves `0`
for empty clusters. -/
def calc_centers_and_sizes (n_clusters dim : Nat) (centers : List (List ℚ))
    (cluster_sizes : List Nat) (dataset : List (List ℚ)) (labels : List Nat)
    (reset_counters : Bool) : Agg :=
  let newSize : Nat → Nat := fun k =>
    labels.count k + (if reset_counters then 0 else cluster_sizes.getD k 0)
  let acc : Nat → Nat → ℚ := fun k d =>
    (if reset_counters then 0
      else (centers.getD k []).getD d 0 * (cluster_sizes.getD k 0 : ℚ))
    + labelSum dataset labels k d
  { centers := (List.range n_clusters).map (fun k => (List.range dim).map (fun d =>
      if (newSize k : ℚ) = 0 then 0 else acc k d / (newSize k : ℚ)))
    sizes := (List.range n_clusters).map newSize }

lemma getD_range_map {α : Type} (f : Nat → α) (K k : Nat) (hk : k < K) (d : α) :
    ((List.range K).map f).getD k d = f k := by
  rw [getD_map_of_lt f (List.range K) k (by simpa using hk) d 0]
  rw [getD_of_lt _ k (by simpa using hk)]
  simp

lemma labelSum_eq_zero_of_count_eq_zero (dataset : List (List ℚ)) (labels : List Nat)
    (k d : Nat) (h : labels.count k = 0) : labelSum dataset labels k d = 0 := by
  unfold labelSum
  have hnm : k ∉ labels := by
    intro hc
    have := List.count_pos_iff_mem.mpr hc
    omega
  have : (labels.zip dataset).filter (fun p => p.1 = k) = [] := by
    apply List.filter_eq_nil.mpr
    intro p hp
    have : p.1 ∈ labels := List.mem_zip hp |>.1
    simp only [decide_eq_true_eq]
    intro hk
    exact hnm (hk ▸ this)
  rw [this]
  rfl

lemma labelSum_append (A B : List (List ℚ)) (lA lB : List Nat) (k d : Nat)
    (hA : lA.length = A.length) :
    labelSum (A ++ B) (lA ++ lB) k d = labelSum A lA k d + labelSum B lB k d := by
  unfold labelSum
  rw [List.zip_append hA, List.filter_append, List.map_append, List.sum_append]

/-- C3: aggregating shard A with `reset=true` and then shard B with
`reset=false` produces exactly the same centers and sizes as a single
`reset=true` aggregation of the concatenated shards. -/
theorem C3_incremental_aggregation (n_clusters dim : Nat) (centers0 : List (List ℚ))
    (sizes0 : List Nat) (A B : List (List ℚ)) (lA lB : List Nat)
    (hA : lA.length = A.length)
    (hlab : ∀ l ∈ lA ++ lB, l < n_clusters) :
    calc_centers_and_sizes n_clusters dim
      (calc_centers_and_sizes n_clusters dim centers0 sizes0 A lA true).centers
      (calc_centers_and_sizes n_clusters dim centers0 sizes0 A lA true).sizes
      B lB false
    = calc_centers_and_sizes n_clusters dim centers0 sizes0 (A ++ B) (lA ++ lB) true := by
  unfold calc_centers_and_sizes
  simp only [if_pos, if_neg, Bool.false_eq_true, not_false_eq_true, ite_true, ite_false]
  have hsize : ∀ k, k < n_clusters →
      lB.count k + ((List.range n_clusters).map (fun k => lA.count k + 0)).getD k 0
      = (lA ++ lB).count k + 0 := by
    intro k hk
    rw [getD_range_map _ n_clusters k hk 0]
    simp [List.count_append]
    omega
  congr 1
  · apply List.map_congr_left
    intro k hk
    have hk : k < n_clusters := List.mem_range.mp hk
    apply List.map_congr_left
    intro d hd
    rw [hsize k hk]
    have hacc :
        ((((List.range n_clusters).map (fun k => (List.range dim).map (fun d =>
            if ((lA.count k + 0 : Nat) : ℚ) = 0 then 0
            else (0 + labelSum A lA k d) / ((lA.count k + 0 : Nat) : ℚ)))).getD k []).getD d 0)
          * (((List.range n_clusters).map (fun k => lA.count k + 0)).getD k 0 : ℚ)
          + labelSum B lB k d
        = 0 + labelSum (A ++ B) (lA ++ lB) k d := by
      rw [getD_range_map _ n_clusters k hk []]
      rw [getD_range_map _ n_clusters k hk 0]
      rw [getD_range_map _ dim d (List.mem_range.mp hd) 0]
      rw [labelSum_append A B lA lB k d hA]
      rcases Nat.eq_zero_or_pos (lA.count k) with h0 | hpos
      · rw [h0, labelSum_eq_zero_of_count_eq_zero A lA k d h0]
        norm_num
      · have hne : ((lA.count k + 0 : Nat) : ℚ) ≠ 0 := by
          rw [Nat.add_zero]
          exact_mod_cast Nat.pos_iff_ne_zero.mp hpos
        rw [if_neg hne]
        field_simp
    rw [hacc]
  · apply List.map_congr_left
    intro k hk
    exact hsize k (List.mem_range.mp hk)

/-- C3 witness: a concrete two-cluster run over two shards. -/
theorem C3_witness :
    ([0, 1] : List Nat).length = ([[(1 : ℚ)], [2]] : List (List ℚ)).length
    ∧ (∀ l ∈ ([0, 1] : List Nat) ++ [1], l < 2)
    ∧ calc_centers_and_sizes 2 1
        (calc_centers_and_sizes 2 1 [[(5 : ℚ)], [6]] [3, 4] [[1], [2]] [0, 1] true).centers
        (calc_centers_and_sizes 2 1 [[(5 : ℚ)], [6]] [3, 4] [[1], [2]] [0, 1] true).sizes
        [[3]] [1] false
      = calc_centers_and_sizes 2 1 [[(5 : ℚ)], [6]] [3, 4] ([[1], [2]] ++ [[3]])
          ([0, 1] ++ [1]) true :=
  ⟨rfl, by decide,
    C3_incremental_aggregation 2 1 [[(5 : ℚ)], [6]] [3, 4] [[1], [2]] [[3]] [0, 1] [1]
      rfl (by decide)⟩

lemma list_sum_range_eq (f : Nat → Nat) (K : Nat) :
    ((List.range K).map f).sum = ∑ k ∈ Finset.range K, f k := by
  induction K with
  | zero => rfl
  | succ K ih =>
    rw [List.range_succ, List.map_append, List.sum_append, Finset.sum_range_succ, ih]
    simp

lemma sum_count_range (labels : List Nat) (K : Nat) (hlab : ∀ l ∈ labels, l < K) :
    (∑ k ∈ Finset.range K, labels.count k) = labels.length := by
  induction labels with
  | nil => simp
  | cons a ls ih =>
    have ha : a < K := hlab a (List.mem_cons_self a ls)
    have hls : ∀ l ∈ ls, l < K := fun l hl => hlab l (List.mem_cons_of_mem a hl)
    have hcnt : ∀ k, (a :: ls).count k = ls.count k + if a = k then 1 else 0 := by
      intro k
      simp [List.count_cons]
    simp only [hcnt]
    rw [Finset.sum_add_distrib, ih hls, Finset.sum_ite_eq (Finset.range K) a (fun _ => 1)]
    simp [Finset.mem_range.mpr ha]

/-- C6: a full (`reset=true`) aggregation pass over `N` rows whose labels
all lie in `[0, K)` produces cluster sizes summing exactly to `N`. -/
theorem C6_reset_sizes_sum_to_n (n_clusters dim : Nat) (centers0 : List (List ℚ))
    (sizes0 : List Nat) (dataset : List (List ℚ)) (labels : List Nat)
    (hlen : labels.length = dataset.length)
    (hlab : ∀ l ∈ labels, l < n_clusters) :
    (calc_centers_and_sizes n_clusters dim centers0 sizes0 dataset labels true).sizes.sum
      = dataset.length := by
  unfold calc_centers_and_sizes
  rw [list_sum_range_eq]
  norm_num
  rw [sum_count_range labels n_clusters hlab, hlen]

/-- C6 witness: three rows, two clusters. -/
theorem C6_witness :
    ([0, 1, 1] : List Nat).length = ([[(1 : ℚ)], [2], [3]] : List (List ℚ)).length
    ∧ (∀ l ∈ ([0, 1, 1] : List Nat), l < 2)
    ∧ (calc_centers_and_sizes 2 1 [[(0 : ℚ)], [0]] [0, 0] [[1], [2], [3]]
        [0, 1, 1] true).sizes.sum = 3 :=
  ⟨rfl, by decide,
    C6_reset_sizes_sum_to_n 2 1 [[(0 : ℚ)], [0]] [0, 0] [[1], [2], [3]] [0, 1, 1]
      rfl (by decide)⟩

/-- C7: a cluster whose accumulated weight is zero keeps value `0` in
every feature of its center — the division by the accumulated count is
guarded, an empty cluster is not an error. -/
theorem C7_zero_size_zero_center (n_clusters dim : Nat) (centers0 : List (List ℚ))
    (sizes0 : List Nat) (dataset : List (List ℚ)) (labels : List Nat)
    (reset_counters : Bool) (k d : Nat) (hk : k < n_clusters) (hd : d < dim)
    (hzero : (calc_centers_and_sizes n_clusters dim centers0 sizes0 dataset labels
        reset_counters).sizes.getD k 0 = 0) :
    (((calc_centers_and_sizes n_clusters dim centers0 sizes0 dataset labels
        reset_counters).centers.getD k []).getD d 0) = 0 := by
  unfold calc_centers_and_sizes at hzero ⊢
  rw [getD_range_map _ n_clusters k hk 0] at hzero
  rw [getD_range_map _ n_clusters k hk []]
  rw [getD_range_map _ dim d hd 0]
  have hc : ((labels.count k + if reset_counters = true then 0
      else sizes0.getD k 0 : Nat) : ℚ) = 0 := by
    rw [hzero]
    simp
  simp only [hc]
  simp

/-- C7 witness: cluster 1 receives no rows. -/
theorem C7_witness :
    (calc_centers_and_sizes 2 1 [[(0 : ℚ)], [0]] [0, 0] [[1], [2]] [0, 0] true).sizes.getD 1 0 = 0
    ∧ (((calc_centers_and_sizes 2 1 [[(0 : ℚ)], [0]] [0, 0] [[1], [2]] [0, 0]
        true).centers.getD 1 []).getD 0 0) = 0 := by
  have hz : (calc_centers_and_sizes 2 1 [[(0 : ℚ)], [0]] [0, 0] [[1], [2]] [0, 0]
      true).sizes.getD 1 0 = 0 := by
    unfold calc_centers_and_sizes
    simp
  exact ⟨hz,
    C7_zero_size_zero_center 2 1 [[(0 : ℚ)], [0]] [0, 0] [[1], [2]] [0, 0] true 1 0
      (by omega) (by omega) hz⟩

/-- One rebalancing event of the EM driver (`balancing_em_iters`): the
code runs `if (balancing_counter++ >= balancing_pullback)
{ balancing_counter -= balancing_pullback; n_iters++; }`, i.e. the old
counter value is compared against the pullback, the counter is
incremented, and on extension the pullback is subtracted back out. -/
def pullbackStep (p c : Nat) : Nat × Bool :=
  if p ≤ c then (c + 1 - p, true) else (c + 1, false)

/-- Counter value after `k` rebalancing events; the driver initialises
`balancing_counter = balancing_pullback`. -/
def pullbackCounter (p : Nat) : Nat → Nat
  | 0 => p
  | k + 1 => (pullbackStep p (pullbackCounter p k)).1

/-- Whether the k-th rebalancing event (k ≥ 1) extends the iteration
budget by one. -/
def pullbackExtends (p k : Nat) : Bool := (pullbackStep p (pullbackCounter p (k - 1))).2

lemma pullbackCounter_closed (p : Nat) (hp : 0 < p) :
    ∀ k, 0 < k → pullbackCounter p k = (k - 1) % p + 1 := by
  intro k
  induction k with
  | zero => omega
  | succ k ih =>
    intro _
    rcases Nat.eq_zero_or_pos k with rfl | hk
    · show (pullbackStep p (pullbackCounter p 0)).1 = (1 - 1) % p + 1
      unfold pullbackCounter pullbackStep
      rw [if_pos le_rfl]
      simp
    · have hc := ih hk
      show (pullbackStep p (pullbackCounter p k)).1 = (k + 1 - 1) % p + 1
      rw [hc, show k + 1 - 1 = k from by omega]
      unfold pullbackStep
      set q := (k - 1) / p with hqdef
      set r := (k - 1) % p with hrdef
      have hr : r < p := Nat.mod_lt _ hp
      have hq : p * q + r = k - 1 := Nat.div_add_mod (k - 1) p
      by_cases hcase : p ≤ r + 1
      · have h1 : r = p - 1 := by omega
        rw [if_pos hcase]
        have hmul : p * (q + 1) = p * q + p := by ring
        have hk2 : k = p * (q + 1) := by omega
        have hk0 : k % p = 0 := by
          rw [hk2]
          exact Nat.mul_mod_right _ _
        dsimp only
        omega
      · rw [if_neg hcase]
        have hk2 : k = p * q + (r + 1) := by omega
        have hk0 : k % p = r + 1 := by
          rw [hk2, Nat.mul_add_mod]
          exact Nat.mod_eq_of_lt (by omega)
        dsimp only
        omega

/-- C4 counterexample: with pullback 2 the very first rebalancing
already extends the budget (the counter starts at the pullback value,
not at zero), although 1 is not a multiple of 2. -/
theorem C4_counterexample :
    pullbackCounter 2 0 ≠ 0 ∧ pullbackExtends 2 1 = true ∧ ¬(1 % 2 = 0) := by
  decide

/-- C4 (amended): the rebalancing counter starts at the pullback value
`p`, so the k-th rebalancing (k ≥ 1) extends the iteration budget iff
k ≡ 1 (mod p) — the 1st, (p+1)-th, (2p+1)-th, ... rebalancings — and the
counter is pulled back by `p` exactly when the budget is extended. -/
theorem C4_pullback_extension (p k : Nat) (hp : 0 < p) (hk : 0 < k) :
    pullbackCounter p 0 = p
    ∧ (pullbackExtends p k = true ↔ k % p = 1 % p) := by
  refine ⟨rfl, ?_⟩
  unfold pullbackExtends
  rcases Nat.eq_or_lt_of_le hk with h1 | h2
  · -- k = 1: the first rebalancing always extends
    have hk1 : k = 1 := h1.symm
    subst hk1
    simp only [pullbackCounter, pullbackStep, if_pos le_rfl]
  · -- k ≥ 2
    have hc : pullbackCounter p (k - 1) = (k - 2) % p + 1 := by
      have := pullbackCounter_closed p hp (k - 1) (by omega)
      simpa [show k - 1 - 1 = k - 2 from by omega] using this
    rw [hc]
    unfold pullbackStep
    set q := (k - 2) / p with hqdef
    set r := (k - 2) % p with hrdef
    have hr : r < p := Nat.mod_lt _ hp
    have hq : p * q + r = k - 2 := Nat.div_add_mod (k - 2) p
    constructor
    · intro hext
      have hcase : p ≤ r + 1 := by
        by_contra hcon
        rw [if_neg hcon] at hext
        simp at hext
      have h1 : r = p - 1 := by omega
      have hmul : p * (q + 1) = p * q + p := by ring
      have hk2 : k = p * (q + 1) + 1 := by omega
      rw [hk2, Nat.mul_add_mod]
    · intro hmod
      have h1 : r = p - 1 := by
        rcases Nat.eq_or_lt_of_le hp with hp1 | hp2
        · omega
        · -- p ≥ 2, so 1 % p = 1
          have h1p : 1 % p = 1 := Nat.mod_eq_of_lt (by omega)
          rw [h1p] at hmod
          have hk2 : k = p * q + (r + 2) := by omega
          by_cases ha : r + 2 < p
          · rw [hk2, Nat.mul_add_mod, Nat.mod_eq_of_lt ha] at hmod
            omega
          · by_cases hb : r + 2 = p
            · rw [hk2, hb, Nat.mul_add_mod, Nat.mod_self] at hmod
              omega
            · omega
      rw [if_pos (by omega)]

/-- C4 witness: with pullback 2 the third rebalancing extends the
budget, and 3 ≡ 1 (mod 2). -/
theorem C4_witness :
    0 < 2 ∧ 0 < 3 ∧ pullbackCounter 2 0 = 2
    ∧ (pullbackExtends 2 3 = true ↔ 3 % 2 = 1 % 2) :=
  ⟨by decide, by decide, (C4_pullback_extension 2 3 (by decide) (by decide)).1,
   (C4_pullback_extension 2 3 (by decide) (by decide)).2⟩

/-- Label initialisation of `build_clusters`: the write-only unary op
assigns `out = LabelT(i % n_clusters)` to every row index `i`. -/
def build_clusters_init_labels (n_rows n_clusters : Nat) : List Nat :=
  (List.range n_rows).map (fun i => i % n_clusters)

lemma count_range_list (n k : Nat) : (List.range n).count k = if k < n then 1 else 0 := by
  induction n with
  | zero => simp
  | succ n ih =>
    rw [List.range_succ, List.count_append, ih]
    by_cases h2 : k = n
    · subst h2
      rw [if_neg (lt_irrefl k), if_pos (Nat.lt_succ_self k)]
      simp
    · have hs : List.count k [n] = 0 := by simp [h2]
      rw [hs]
      by_cases h1 : k < n
      · rw [if_pos h1, if_pos (by omega)]
      · rw [if_neg h1, if_neg (by omega)]

lemma count_init_labels (K : Nat) (hK : 0 < K) :
    ∀ N c, c < K → (build_clusters_init_labels N K).count c
      = N / K + if c < N % K then 1 else 0 := by
  intro N
  induction N using Nat.strong_induction_on with
  | _ N ih =>
    intro c hc
    by_cases hNK : N < K
    · have hmap : build_clusters_init_labels N K = List.range N := by
        unfold build_clusters_init_labels
        have harg : ∀ i ∈ List.range N, i % K = i := by
          intro i hi
          exact Nat.mod_eq_of_lt (by have := List.mem_range.mp hi; omega)
        rw [List.map_congr_left harg, List.map_id']
      rw [hmap, count_range_list, Nat.div_eq_of_lt hNK, Nat.mod_eq_of_lt hNK]
      simp
    · have hsplit : N = K + (N - K) := by omega
      have hmap : build_clusters_init_labels N K
          = (List.range K).map (fun i => i % K)
            ++ (List.range (N - K)).map (fun i => i % K) := by
        unfold build_clusters_init_labels
        conv_lhs => rw [hsplit]
        rw [List.range_add, List.map_append, List.map_map]
        congr 1
        apply List.map_congr_left
        intro i _
        simp [Function.comp, Nat.add_mod_left]
      have hfirst : ((List.range K).map (fun i => i % K)).count c = 1 := by
        have : (List.range K).map (fun i => i % K) = List.range K := by
          have harg : ∀ i ∈ List.range K, i % K = i := by
            intro i hi
            exact Nat.mod_eq_of_lt (List.mem_range.mp hi)
          rw [List.map_congr_left harg, List.map_id']
        rw [this, count_range_list, if_pos hc]
      have hdiv : N / K = (N - K) / K + 1 := by
        conv_lhs => rw [hsplit]
        rw [Nat.add_comm, Nat.add_div_right _ hK]
      have hmod : N % K = (N - K) % K := by
        conv_lhs => rw [hsplit]
        rw [Nat.add_comm, Nat.add_mod_right]
      have hrec := ih (N - K) (by omega) c hc
      unfold build_clusters_init_labels at hrec
      rw [hmap, List.count_append, hfirst, hrec, hdiv, hmod]
      omega

/-- C10: `build_clusters` initialises labels deterministically: row `i`
gets label `i % n_clusters` (round-robin, no randomness involved), and
the cluster sizes computed from this initial assignment by the first
(reset) aggregation differ from one another by at most 1. -/
theorem C10_roundrobin_init (N K dim : Nat) (hK : 0 < K) (dataset : List (List ℚ))
    (centers0 : List (List ℚ)) (sizes0 : List Nat) :
    (∀ i, i < N → (build_clusters_init_labels N K).getD i 0 = i % K)
    ∧ (∀ c1 c2, c1 < K → c2 < K →
        (calc_centers_and_sizes K dim centers0 sizes0 dataset
          (build_clusters_init_labels N K) true).sizes.getD c1 0
        ≤ (calc_centers_and_sizes K dim centers0 sizes0 dataset
          (build_clusters_init_labels N K) true).sizes.getD c2 0 + 1) := by
  constructor
  · intro i hi
    unfold build_clusters_init_labels
    rw [getD_map_of_lt _ (List.range N) i (by simpa using hi) 0 0]
    rw [getD_of_lt (List.range N) i (by simpa using hi) 0]
    simp
  · intro c1 c2 hc1 hc2
    have hsz : ∀ c, c < K →
        (calc_centers_and_sizes K dim centers0 sizes0 dataset
          (build_clusters_init_labels N K) true).sizes.getD c 0
        = N / K + if c < N % K then 1 else 0 := by
      intro c hc
      unfold calc_centers_and_sizes
      rw [getD_range_map _ K c hc 0]
      rw [count_init_labels K hK N c hc]
      simp
    rw [hsz c1 hc1, hsz c2 hc2]
    by_cases h1 : c1 < N % K <;> by_cases h2 : c2 < N % K <;> simp [h1, h2] <;> omega

/-- C10 witness: five rows in two clusters give sizes 3 and 2. -/
theorem C10_witness :
    0 < 2
    ∧ (∀ i, i < 5 → (build_clusters_init_labels 5 2).getD i 0 = i % 2)
    ∧ (∀ c1 c2, c1 < 2 → c2 < 2 →
        (calc_centers_and_sizes 2 1 [] [] [] (build_clusters_init_labels 5 2)
          true).sizes.getD c1 0
        ≤ (calc_centers_and_sizes 2 1 [] [] [] (build_clusters_init_labels 5 2)
          true).sizes.getD c2 0 + 1) :=
  ⟨by decide, (C10_roundrobin_init 5 2 1 (by decide) [] [] []).1,
   (C10_roundrobin_init 5 2 1 (by decide) [] [] []).2⟩

/-- Modulus of `uint32_t` arithmetic. -/
def u32 : Nat := 2 ^ 32

/-- `uint32_t` subtraction: wraps modulo `2^32`. -/
def wsub (a b : Nat) : Nat := (a + (u32 - b % u32)) % u32

/-- C cast of a nonnegative floating-point value to an unsigned integer:
truncation toward zero, i.e. the floor for nonnegative values. -/
def toUint (q : ℚ) : Nat := ⌊q⌋₊

lemma wsub_eq (a b : Nat) (hb : b ≤ a) (ha : a < u32) : wsub a b = a - b := by
  unfold wsub
  have hbu : b < u32 := by omega
  rw [Nat.mod_eq_of_lt hbu]
  have h1 : a + (u32 - b) = (a - b) + u32 := by omega
  rw [h1, Nat.add_mod_right]
  exact Nat.mod_eq_of_lt (by omega)

lemma toUint_add_half (n : Nat) : toUint ((n : ℚ) + 1 / 2) = n := by
  unfold toUint
  rw [Nat.floor_eq_iff (by positivity)]
  constructor
  · norm_num
  · norm_num

/-- Loop body of `arrange_fine_clusters`, processing the mesocluster
sizes in order.  All but the last mesocluster get
`max(min(round(n_lists_rem * size / n_rows_rem), n_lists_rem - n_nonempty_ms_rem), 1)`
fine clusters when nonempty and `0` when empty (the nonempty-counter is
decremented first); the last mesocluster absorbs whatever remains.  The
subtractions are `uint32_t` and wrap. -/
def arrangeGo (listsRem nonemptyRem : Nat) (rowsRem : Int) : List Nat → List Nat
  | [] => []
  | [_] => [listsRem]
  | sz :: rest =>
      let fine :=
        if sz = 0 then 0
        else
          max (min (toUint ((listsRem : ℚ) * (sz : ℚ) / (rowsRem : ℚ) + 1 / 2))
            (wsub listsRem (wsub nonemptyRem 1))) 1
      fine :: arrangeGo (wsub listsRem fine)
        (if sz = 0 then nonemptyRem else wsub nonemptyRem 1)
        (rowsRem - (sz : Int)) rest

/-- `arrange_fine_clusters`: distribute `n_clusters` fine clusters over
the mesoclusters proportionally to their sizes. -/
def arrange_fine_clusters (n_clusters : Nat) (n_rows : Int)
    (mesocluster_sizes : List Nat) : List Nat :=
  arrangeGo n_clusters (mesocluster_sizes.countP (fun s => decide (0 < s))) n_rows
    mesocluster_sizes

lemma sum_eq_zero_of_countP_pos_zero (l : List Nat)
    (h : l.countP (fun s => decide (0 < s)) = 0) : l.sum = 0 := by
  apply List.sum_eq_zero
  intro x hx
  have := List.countP_eq_zero.mp h x hx
  simpa using this

lemma arrangeGo_nil (L E : Nat) (R : Int) : arrangeGo L E R [] = [] := rfl

lemma arrangeGo_single (L E : Nat) (R : Int) (sz : Nat) : arrangeGo L E R [sz] = [L] := rfl

lemma arrangeGo_cons_cons (L E : Nat) (R : Int) (sz r : Nat) (rs : List Nat) :
    arrangeGo L E R (sz :: r :: rs)
      = (if sz = 0 then 0
          else max (min (toUint ((L : ℚ) * (sz : ℚ) / (R : ℚ) + 1 / 2))
            (wsub L (wsub E 1))) 1)
        :: arrangeGo
          (wsub L (if sz = 0 then 0
            else max (min (toUint ((L : ℚ) * (sz : ℚ) / (R : ℚ) + 1 / 2))
              (wsub L (wsub E 1))) 1))
          (if sz = 0 then E else wsub E 1) (R - (sz : Int)) (r :: rs) := rfl

/-- C2 counterexample: three unit-size mesoclusters but only two
requested clusters (2 ≤ N = 3): the first two mesoclusters are forced to
one fine cluster each, so the last mesocluster — nonempty — receives
zero fine clusters, contradicting the claim. -/
theorem C2_counterexample :
    ([1, 1, 1] : List Nat).sum = 3 ∧ (2 : Int) ≤ 3
    ∧ 0 < ([1, 1, 1] : List Nat).getD 2 0
    ∧ arrange_fine_clusters 2 3 [1, 1, 1] = [1, 1, 0]
    ∧ ¬(1 ≤ (arrange_fine_clusters 2 3 [1, 1, 1]).getD 2 0) := by
  have hw31 : wsub 3 1 = 2 := by decide
  have hw22 : wsub 2 2 = 0 := by decide
  have hw21 : wsub 2 1 = 1 := by decide
  have hw11 : wsub 1 1 = 0 := by decide
  have hrun : arrange_fine_clusters 2 3 [1, 1, 1] = [1, 1, 0] := by
    unfold arrange_fine_clusters
    have hcount : ([1, 1, 1] : List Nat).countP (fun s => decide (0 < s)) = 3 := by decide
    rw [hcount]
    rw [arrangeGo_cons_cons, hw31, hw22]
    norm_num
    rw [hw21, arrangeGo_cons_cons, hw21, hw11]
    norm_num
    rw [hw11, arrangeGo_single]
  refine ⟨by decide, by decide, by decide, hrun, ?_⟩
  rw [hrun]
  decide

/-- Invariant induction for the fine-cluster arrangement loop: with the
nonempty-count `E` and row-remainder `R` consistent with the remaining
sizes, `E ≤ L`, `L = 0` whenever `E = 0`, and `L` in `uint32` range, the
produced fine-cluster counts sum to `L`, give every nonempty mesocluster
at least one cluster and every empty one exactly zero. -/
lemma arrangeGo_spec : ∀ (l : List Nat) (L E : Nat) (R : Int),
    E = l.countP (fun s => decide (0 < s)) →
    R = (l.sum : Int) →
    E ≤ L →
    (E = 0 → L = 0) →
    L < u32 →
    (arrangeGo L E R l).sum = L
    ∧ (arrangeGo L E R l).length = l.length
    ∧ (∀ i, i < l.length → 0 < l.getD i 0 → 1 ≤ (arrangeGo L E R l).getD i 0)
    ∧ (∀ i, i < l.length → l.getD i 0 = 0 → (arrangeGo L E R l).getD i 0 = 0) := by
  intro l
  induction l with
  | nil =>
    intro L E R hE hR hEL hE0 hL
    have hL0 : L = 0 := hE0 (by simpa using hE)
    subst hL0
    refine ⟨by simp [arrangeGo_nil], by simp [arrangeGo_nil], ?_, ?_⟩
    · intro i hi
      simp at hi
    · intro i hi
      simp at hi
  | cons sz rest ih =>
    intro L E R hE hR hEL hE0 hL
    cases rest with
    | nil =>
      rw [arrangeGo_single]
      refine ⟨by simp, by simp, ?_, ?_⟩
      · intro i hi hpos
        have hi0 : i = 0 := by simpa using hi
        subst hi0
        simp only [List.getD_cons_zero] at hpos ⊢
        have hE1 : E = 1 := by
          rw [hE]
          simp [List.countP_cons, hpos]
        omega
      · intro i hi hz
        have hi0 : i = 0 := by simpa using hi
        subst hi0
        simp only [List.getD_cons_zero] at hz ⊢
        have hE1 : E = 0 := by
          rw [hE]
          simp [List.countP_cons, hz]
        exact hE0 hE1
    | cons r rs =>
      rw [arrangeGo_cons_cons]
      by_cases hsz : sz = 0
      · simp only [if_pos hsz]
        have hw0 : wsub L 0 = L := by
          rw [wsub_eq L 0 (by omega) hL]
          omega
        rw [hw0]
        have hE2 : E = (r :: rs).countP (fun s => decide (0 < s)) := by
          rw [hE, hsz]
          simp [List.countP_cons]
        have hR2 : R - (sz : Int) = (((r :: rs).sum : Nat) : Int) := by
          rw [hR, hsz]
          simp [List.sum_cons]
        obtain ⟨hsum, hlen, hpos, hzero⟩ := ih L E (R - (sz : Int)) hE2 hR2 hEL hE0 hL
        refine ⟨by simpa using hsum, by simpa using hlen, ?_, ?_⟩
        · intro i hi hp
          cases i with
          | zero =>
            rw [List.getD_cons_zero] at hp
            omega
          | succ i =>
            rw [List.getD_cons_succ] at hp ⊢
            exact hpos i (by simpa using hi) hp
        · intro i hi hz
          cases i with
          | zero => simp
          | succ i =>
            rw [List.getD_cons_succ] at hz ⊢
            exact hzero i (by simpa using hi) hz
      · simp only [if_neg hsz]
        set Er := (r :: rs).countP (fun s => decide (0 < s)) with hErdef
        have hEeq : E = Er + 1 := by
          rw [hE, List.countP_cons, ← hErdef]
          simp [Nat.pos_of_ne_zero hsz]
        have hw1 : wsub E 1 = Er := by
          rw [wsub_eq E 1 (by omega) (by omega)]
          omega
        rw [hw1]
        have hw2 : wsub L Er = L - Er := wsub_eq L Er (by omega) hL
        rw [hw2]
        set s := toUint ((L : ℚ) * (sz : ℚ) / (R : ℚ) + 1 / 2) with hsdef
        set fine := max (min s (L - Er)) 1 with hfinedef
        have hfge1 : 1 ≤ fine := le_max_right _ _
        have hfle : fine ≤ L - Er := by
          apply max_le (min_le_right _ _)
          omega
        have hw3 : wsub L fine = L - fine := wsub_eq L fine (by omega) hL
        rw [hw3]
        have hR2 : R - (sz : Int) = (((r :: rs).sum : Nat) : Int) := by
          rw [hR]
          simp [List.sum_cons]
        have hE02 : Er = 0 → L - fine = 0 := by
          intro h0
          have hsum0 : (r :: rs).sum = 0 := sum_eq_zero_of_countP_pos_zero _ (by rw [← hErdef]; exact h0)
          have hRz : R = (sz : Int) := by
            rw [hR]
            simp [List.sum_cons, hsum0]
          have hs : s = L := by
            rw [hsdef, hRz]
            have hszQ : ((sz : Nat) : ℚ) ≠ 0 := Nat.cast_ne_zero.mpr hsz
            push_cast
            rw [mul_div_cancel_right₀ _ hszQ]
            exact toUint_add_half L
          have hfine : fine = L := by
            rw [hfinedef, hs, h0]
            omega
          omega
        obtain ⟨hsum, hlen, hpos, hzero⟩ :=
          ih (L - fine) Er (R - (sz : Int)) rfl hR2 (by omega) hE02 (by omega)
        refine ⟨?_, by simpa using hlen, ?_, ?_⟩
        · rw [List.sum_cons, hsum]
          omega
        · intro i hi hp
          cases i with
          | zero =>
            rw [List.getD_cons_zero]
            exact hfge1
          | succ i =>
            rw [List.getD_cons_succ] at hp ⊢
            exact hpos i (by simpa using hi) hp
        · intro i hi hz
          cases i with
          | zero =>
            rw [List.getD_cons_zero] at hz
            omega
          | succ i =>
            rw [List.getD_cons_succ] at hz ⊢
            exact hzero i (by simpa using hi) hz

/-- C2 (amended): when additionally the number of nonempty mesoclusters
does not exceed the requested cluster count (always true in
`build_hierarchical`, where there are at most `sqrt(K)`-ish
mesoclusters), `arrange_fine_clusters` distributes exactly `n_clusters`
fine clusters, at least one per nonempty mesocluster and exactly zero
per empty one. -/
theorem C2_arrange_fine_clusters_sum (n_clusters : Nat) (n_rows : Int) (sizes : List Nat)
    (hrows : n_rows = (sizes.sum : Int))
    (hKN : (n_clusters : Int) ≤ n_rows)
    (hKu : n_clusters < u32)
    (hne : sizes.countP (fun s => decide (0 < s)) ≤ n_clusters) :
    (arrange_fine_clusters n_clusters n_rows sizes).sum = n_clusters
    ∧ (arrange_fine_clusters n_clusters n_rows sizes).length = sizes.length
    ∧ (∀ i, i < sizes.length → 0 < sizes.getD i 0 →
        1 ≤ (arrange_fine_clusters n_clusters n_rows sizes).getD i 0)
    ∧ (∀ i, i < sizes.length → sizes.getD i 0 = 0 →
        (arrange_fine_clusters n_clusters n_rows sizes).getD i 0 = 0) := by
  unfold arrange_fine_clusters
  apply arrangeGo_spec sizes n_clusters _ n_rows rfl hrows hne ?_ hKu
  intro h0
  have hs0 := sum_eq_zero_of_countP_pos_zero sizes h0
  rw [hs0] at hrows
  omega

/-- C2 witness: sizes `[2, 1, 0]`, three rows, two requested clusters. -/
theorem C2_witness :
    (3 : Int) = (([2, 1, 0] : List Nat).sum : Int)
    ∧ ((2 : Nat) : Int) ≤ 3
    ∧ 2 < u32
    ∧ ([2, 1, 0] : List Nat).countP (fun s => decide (0 < s)) ≤ 2
    ∧ ((arrange_fine_clusters 2 3 [2, 1, 0]).sum = 2
      ∧ (arrange_fine_clusters 2 3 [2, 1, 0]).length = ([2, 1, 0] : List Nat).length
      ∧ (∀ i, i < ([2, 1, 0] : List Nat).length → 0 < ([2, 1, 0] : List Nat).getD i 0 →
          1 ≤ (arrange_fine_clusters 2 3 [2, 1, 0]).getD i 0)
      ∧ (∀ i, i < ([2, 1, 0] : List Nat).length → ([2, 1, 0] : List Nat).getD i 0 = 0 →
          (arrange_fine_clusters 2 3 [2, 1, 0]).getD i 0 = 0)) :=
  ⟨by decide, by decide, by decide, by decide,
    C2_arrange_fine_clusters_sum 2 3 [2, 1, 0] (by decide) (by decide) (by decide) (by decide)⟩

/-- Weight cap for the center value in the `adjust_centers` weighted
average (`kAdjustCentersWeight = 7.0f`). -/
def kAdjustCentersWeight : ℚ := 7

/-- Prime table from which `adjust_centers` picks its probing stride. -/
def kPrimes : List Nat :=
  [29, 71, 113, 173, 229, 281, 349, 409, 463, 541,
   601, 659, 733, 809, 863, 941, 1013, 1069, 1151, 1223,
   1291, 1373, 1451, 1511, 1583, 1657, 1733, 1811, 1889, 1987,
   2053, 2129, 2213, 2287, 2357, 2423, 2531, 2617, 2687, 2741]

/-- Stride selection of `adjust_centers`: advance the persistent
`i_primes` cursor cyclically until reaching a prime that does not divide
`n_rows` (do-while).  The C++ loop never terminates when every table
entry divides `n_rows`; the fuel is one full table cycle. -/
def pickOfstGo (n_rows : Nat) : Nat → Nat → Option (Nat × Nat)
  | 0, _ => none
  | fuel + 1, i_primes =>
      let ip := (i_primes + 1) % kPrimes.length
      let ofst := kPrimes.getD ip 1
      if n_rows % ofst = 0 then pickOfstGo n_rows fuel ip else some (ip, ofst)

/-- Donor-row probe of `adjust_centers` (host path): step the persistent
cursor `i = (i + ofst) % n_rows` until the current row's cluster has at
least `average` members (do-while, so the cursor moves before the first
test).  The C++ loop never terminates when no such row exists; the fuel
is `n_rows` (a full cycle for a coprime stride). -/
def donorSearchGo (labels sizes : List Nat) (average n_rows ofst : Nat) :
    Nat → Nat → Option Nat
  | 0, _ => none
  | fuel + 1, i =>
      let i2 := (i + ofst) % n_rows
      if average ≤ sizes.getD (labels.getD i2 0) 0 then some i2
      else donorSearchGo labels sizes average n_rows ofst fuel i2

/-- Result of `adjust_centers`: updated centers, persistent probe cursor
and whether any center changed. -/
structure AdjustResult where
  centers : List (List ℚ)
  i : Nat
  adjusted : Bool
  deriving DecidableEq, Repr

/-- New value written over a starved center: the weighted average of the
donor row's cluster center (`wc * centers[li]`) and the donor row itself
(weight `wd = 1`), divided by `wc + wd`. -/
def adjustRow (wc : ℚ) (donorCenter donorRow : List ℚ) (dim : Nat) : List ℚ :=
  (List.range dim).map (fun j =>
    (wc * donorCenter.getD j 0 + 1 * donorRow.getD j 0) / (wc + 1))

/-- Host-side cluster loop of `adjust_centers`: clusters larger than
`uint32(average * threshold)` are skipped; every other cluster gets its
center overwritten from a probed donor row, with the center weight
`wc = min(csize, kAdjustCentersWeight)`. -/
def adjustLoop (dataset : List (List ℚ)) (labels sizes : List Nat)
    (dim average n_rows ofst thrUint : Nat) :
    List Nat → AdjustResult → Option AdjustResult
  | [], st => some st
  | l :: ls, st =>
      let csize := sizes.getD l 0
      if thrUint < csize then
        adjustLoop dataset labels sizes dim average n_rows ofst thrUint ls st
      else
        match donorSearchGo labels sizes average n_rows ofst n_rows st.i with
        | none => none
        | some i2 =>
            let li := labels.getD i2 0
            let wc := min (csize : ℚ) kAdjustCentersWeight
            let newRow := adjustRow wc (st.centers.getD li []) (dataset.getD i2 []) dim
            adjustLoop dataset labels sizes dim average n_rows ofst thrUint ls
              ⟨st.centers.set l newRow, i2, true⟩

/-- `adjust_centers` (host path), with the C++ `static` probe state
(`i`, `i_primes`) made explicit as arguments and results.  `none`
models the non-terminating C++ probe loops. -/
def adjust_centers (centers : List (List ℚ)) (n_clusters dim : Nat)
    (dataset : List (List ℚ)) (n_rows : Nat) (labels sizes : List Nat)
    (threshold : ℚ) (i0 i_primes0 : Nat) : Option (AdjustResult × Nat) :=
  if n_clusters = 0 then some (⟨centers, i0, false⟩, i_primes0)
  else
    match pickOfstGo n_rows kPrimes.length i_primes0 with
    | none => none
    | some (ip, ofst) =>
        let average := n_rows / n_clusters
        let thrUint := toUint ((average : ℚ) * threshold)
        (adjustLoop dataset labels sizes dim average n_rows ofst thrUint
          (List.range n_clusters) ⟨centers, i0, false⟩).map (fun st => (st, ip))

lemma getD_set_self {α : Type} (l : List α) (i : Nat) (hi : i < l.length) (v d : α) :
    (l.set i v).getD i d = v := by
  simp [List.getD_eq_getElem?_getD, List.getElem?_set_self, hi]

lemma getD_set_ne {α : Type} (l : List α) (i j : Nat) (h : i ≠ j) (v d : α) :
    (l.set i v).getD j d = l.getD j d := by
  simp [List.getD_eq_getElem?_getD, List.getElem?_set_ne h]

/-- A successful donor probe lands on a row index below `n_rows` whose
cluster is at least `average` large. -/
lemma donorSearchGo_some (labels sizes : List Nat) (average n_rows ofst : Nat)
    (hn : 0 < n_rows) :
    ∀ (fuel i d : Nat),
      donorSearchGo labels sizes average n_rows ofst fuel i = some d →
      d < n_rows ∧ average ≤ sizes.getD (labels.getD d 0) 0 := by
  intro fuel
  induction fuel with
  | zero =>
    intro i d h
    simp [donorSearchGo] at h
  | succ fuel ih =>
    intro i d h
    unfold donorSearchGo at h
    by_cases hc : average ≤ sizes.getD (labels.getD ((i + ofst) % n_rows) 0) 0
    · rw [if_pos hc] at h
      obtain rfl : (i + ofst) % n_rows = d := Option.some.inj h
      exact ⟨Nat.mod_lt _ hn, hc⟩
    · rw [if_neg hc] at h
      exact ih _ d h

/-- Invariant induction over the cluster loop of `adjust_centers`:
clusters above the threshold keep their original centers, clusters not
in the remaining work list keep the incoming state, and every starved
cluster in the (duplicate-free) work list ends up overwritten by the
weighted average of a large-cluster donor row and that donor's
(untouched) cluster center. -/
lemma adjustLoop_spec (dataset : List (List ℚ)) (labels sizes : List Nat)
    (dim average n_rows ofst thrUint : Nat) (centers0 : List (List ℚ))
    (hn : 0 < n_rows)
    (hbig : ∀ d, d < n_rows → average ≤ sizes.getD (labels.getD d 0) 0 →
      thrUint < sizes.getD (labels.getD d 0) 0) :
    ∀ (todo : List Nat) (st res : AdjustResult),
      st.centers.length = centers0.length →
      (∀ c, thrUint < sizes.getD c 0 → st.centers.getD c [] = centers0.getD c []) →
      todo.Nodup →
      adjustLoop dataset labels sizes dim average n_rows ofst thrUint todo st = some res →
      res.centers.length = centers0.length
      ∧ (∀ c, thrUint < sizes.getD c 0 → res.centers.getD c [] = centers0.getD c [])
      ∧ (∀ c, c ∉ todo → res.centers.getD c [] = st.centers.getD c [])
      ∧ (∀ l ∈ todo, l < centers0.length → sizes.getD l 0 ≤ thrUint →
          ∃ d, d < n_rows ∧ average ≤ sizes.getD (labels.getD d 0) 0 ∧
            res.centers.getD l []
              = adjustRow (min (sizes.getD l 0 : ℚ) kAdjustCentersWeight)
                  (centers0.getD (labels.getD d 0) []) (dataset.getD d []) dim) := by
  intro todo
  induction todo with
  | nil =>
    intro st res hlen hInv _ hrun
    obtain rfl : st = res := Option.some.inj hrun
    exact ⟨hlen, hInv, fun c _ => rfl, by simp⟩
  | cons l ls ih =>
    intro st res hlen hInv hnd hrun
    have hndtail : ls.Nodup := (List.nodup_cons.mp hnd).2
    have hlnotin : l ∉ ls := (List.nodup_cons.mp hnd).1
    unfold adjustLoop at hrun
    by_cases hskip : thrUint < sizes.getD l 0
    · rw [if_pos hskip] at hrun
      obtain ⟨h1, h2, h3, h4⟩ := ih st res hlen hInv hndtail hrun
      refine ⟨h1, h2, ?_, ?_⟩
      · intro c hc
        exact h3 c (fun hm => hc (List.mem_cons_of_mem l hm))
      · intro m hm hmlt hmst
        rcases List.mem_cons.mp hm with rfl | hm2
        · omega
        · exact h4 m hm2 hmlt hmst
    · rw [if_neg hskip] at hrun
      rcases hds : donorSearchGo labels sizes average n_rows ofst n_rows st.i with _ | i2
      · rw [hds] at hrun
        simp at hrun
      rw [hds] at hrun
      simp only [] at hrun
      obtain ⟨hd1, hd2⟩ := donorSearchGo_some labels sizes average n_rows ofst hn _ _ _ hds
      set li := labels.getD i2 0 with hlidef
      have hlibig : thrUint < sizes.getD li 0 := hbig i2 hd1 hd2
      have hlne : l ≠ li := by
        intro hcon
        rw [hcon] at hskip
        exact hskip hlibig
      set newRow := adjustRow (min ((sizes.getD l 0 : ℚ)) kAdjustCentersWeight)
        (st.centers.getD li []) (dataset.getD i2 []) dim with hnrdef
      have hlen2 : (st.centers.set l newRow).length = centers0.length := by
        rw [List.length_set]
        exact hlen
      have hInv2 : ∀ c, thrUint < sizes.getD c 0 →
          (st.centers.set l newRow).getD c [] = centers0.getD c [] := by
        intro c hc
        have : l ≠ c := by
          intro hcon
          rw [hcon] at hskip
          exact hskip hc
        rw [getD_set_ne _ _ _ this]
        exact hInv c hc
      obtain ⟨h1, h2, h3, h4⟩ := ih ⟨st.centers.set l newRow, i2, true⟩ res hlen2 hInv2
        hndtail hrun
      refine ⟨h1, h2, ?_, ?_⟩
      · intro c hc
        have hcl : c ≠ l := fun hcon => hc (hcon ▸ List.mem_cons_self l ls)
        have := h3 c (fun hm => hc (List.mem_cons_of_mem l hm))
        rw [this]
        show (st.centers.set l newRow).getD c [] = st.centers.getD c []
        rw [getD_set_ne _ _ _ (fun hcon => hcl hcon.symm)]
      · intro m hm hmlt hmst
        rcases List.mem_cons.mp hm with rfl | hm2
        · refine ⟨i2, hd1, hd2, ?_⟩
          have := h3 m hlnotin
          rw [this]
          show (st.centers.set m newRow).getD m [] = _
          rw [getD_set_self _ _ (by omega) _ _]
          rw [hnrdef]
          congr 1
          exact hInv li hlibig
        · exact h4 m hm2 hmlt hmst

/-- C5 (amended): after `adjust_centers` with threshold `t ∈ [0, 1)` and
sizes consistent with the labels, every cluster of size at most
`average * t` has its center replaced by
`(wc * donor_cluster_center + 1.0 * donor_row) / (wc + 1.0)` with
`wc = min(size, 7.0)`, where the donor row belongs to a cluster of at
least average size — the code reads the donor row's cluster center
`centers[li]`, not the starved cluster's own old center; centers of
clusters above the threshold are unchanged. -/
theorem C5_adjust_centers_starved (centers : List (List ℚ)) (n_clusters dim : Nat)
    (dataset : List (List ℚ)) (n_rows : Nat) (labels sizes : List Nat)
    (threshold : ℚ) (i0 ip0 : Nat) (res : AdjustResult) (ip : Nat)
    (hn : 0 < n_rows)
    (ht0 : 0 ≤ threshold) (ht1 : threshold < 1)
    (hlen : centers.length = n_clusters)
    (hlab : ∀ x ∈ labels, x < n_clusters)
    (hlablen : labels.length = n_rows)
    (hcons : ∀ c, c < n_clusters → sizes.getD c 0 = labels.count c)
    (hrun : adjust_centers centers n_clusters dim dataset n_rows labels sizes threshold
      i0 ip0 = some (res, ip)) :
    ∀ l, l < n_clusters →
      ((((n_rows / n_clusters : Nat) : ℚ) * threshold < (sizes.getD l 0 : ℚ) →
        res.centers.getD l [] = centers.getD l [])
      ∧ ((sizes.getD l 0 : ℚ) ≤ ((n_rows / n_clusters : Nat) : ℚ) * threshold →
        ∃ d, d < n_rows ∧ n_rows / n_clusters ≤ sizes.getD (labels.getD d 0) 0 ∧
          res.centers.getD l []
            = adjustRow (min (sizes.getD l 0 : ℚ) kAdjustCentersWeight)
                (centers.getD (labels.getD d 0) []) (dataset.getD d []) dim)) := by
  by_cases hK : n_clusters = 0
  · intro l hl
    omega
  unfold adjust_centers at hrun
  rw [if_neg hK] at hrun
  rcases hpick : pickOfstGo n_rows kPrimes.length ip0 with _ | ⟨ip2, ofst⟩
  · rw [hpick] at hrun
    simp at hrun
  rw [hpick] at hrun
  dsimp only at hrun
  set average := n_rows / n_clusters with havg
  set thrUint := toUint ((average : ℚ) * threshold) with hthr
  rcases Option.map_eq_some'.mp hrun with ⟨st, hst, hpair⟩
  have hstres : st = res := congrArg Prod.fst hpair
  rw [hstres] at hst
  have hmt : 0 ≤ (average : ℚ) * threshold := by positivity
  have hbridge_lt : ∀ m : Nat, ((average : ℚ) * threshold < (m : ℚ)) ↔ thrUint < m := by
    intro m
    rw [hthr]
    unfold toUint
    exact (Nat.floor_lt hmt).symm
  have hbridge_le : ∀ m : Nat, ((m : ℚ) ≤ (average : ℚ) * threshold) ↔ m ≤ thrUint := by
    intro m
    rw [hthr]
    unfold toUint
    exact (Nat.le_floor_iff hmt).symm
  have hbig : ∀ d, d < n_rows → average ≤ sizes.getD (labels.getD d 0) 0 →
      thrUint < sizes.getD (labels.getD d 0) 0 := by
    intro d hd hbigd
    set c := labels.getD d 0 with hcdef
    have hcmem : c ∈ labels := by
      rw [hcdef, getD_of_lt labels d (by omega)]
      exact labels.get_mem _ _
    have hcK : c < n_clusters := hlab c hcmem
    have hcpos : 0 < sizes.getD c 0 := by
      rw [hcons c hcK]
      exact List.count_pos_iff.mpr hcmem
    rcases Nat.eq_zero_or_pos average with havg0 | havgpos
    · have hthr0 : thrUint = 0 := by
        rw [hthr, havg0]
        simp [toUint]
      omega
    · have h1 : (average : ℚ) * threshold < (average : ℚ) := by
        calc (average : ℚ) * threshold < (average : ℚ) * 1 := by
              apply mul_lt_mul_of_pos_left ht1
              exact_mod_cast havgpos
          _ = (average : ℚ) := mul_one _
      have h2 : thrUint < average := (hbridge_lt average).mp h1
      omega
  obtain ⟨h1, h2, h3, h4⟩ := adjustLoop_spec dataset labels sizes dim average n_rows ofst
    thrUint centers hn hbig (List.range n_clusters) ⟨centers, i0, false⟩ res rfl
    (fun c _ => rfl) (List.nodup_range n_clusters) hst
  intro l hl
  constructor
  · intro hlt
    exact h2 l ((hbridge_lt _).mp hlt)
  · intro hle
    exact h4 l (List.mem_range.mpr hl) (by omega) ((hbridge_le _).mp hle)

lemma adjustLoop_nil_eq (d : List (List ℚ)) (lb sz : List Nat) (dim avg n of th : Nat)
    (st : AdjustResult) : adjustLoop d lb sz dim avg n of th [] st = some st := rfl

lemma adjustLoop_cons_eq (d : List (List ℚ)) (lb sz : List Nat) (dim avg n of th : Nat)
    (l : Nat) (ls : List Nat) (st : AdjustResult) :
    adjustLoop d lb sz dim avg n of th (l :: ls) st
      = if th < sz.getD l 0 then adjustLoop d lb sz dim avg n of th ls st
        else
          match donorSearchGo lb sz avg n of n st.i with
          | none => none
          | some i2 =>
              adjustLoop d lb sz dim avg n of th ls
                ⟨st.centers.set l (adjustRow (min (sz.getD l 0 : ℚ) kAdjustCentersWeight)
                  (st.centers.getD (lb.getD i2 0) []) (d.getD i2 []) dim), i2, true⟩ := rfl

/-- A fully concrete `adjust_centers` run: four rows in one dimension,
cluster 0 starved (size 1), cluster 1 large (size 3, center `[10]`);
the probe picks stride 71, lands on row 3 (value `[4]`, cluster 1), and
cluster 0's center becomes `(1 * 10 + 4) / 2 = 7`. -/
lemma adjust_centers_example :
    adjust_centers [[(0 : ℚ)], [10]] 2 1 [[1], [2], [3], [4]] 4 [1, 0, 1, 1] [1, 3]
      (1 / 2) 0 0 = some (⟨[[7], [10]], 3, true⟩, 1) := by
  have hpick : pickOfstGo 4 kPrimes.length 0 = some (1, 71) := by decide
  have hthr : toUint (((4 / 2 : Nat) : ℚ) * (1 / 2)) = 1 := by
    unfold toUint
    rw [Nat.floor_eq_iff (by positivity)]
    norm_num
  have hdon : donorSearchGo [1, 0, 1, 1] [1, 3] (4 / 2) 4 71 4 0 = some 3 := by decide
  unfold adjust_centers
  rw [if_neg (by norm_num), hpick]
  dsimp only
  rw [hthr]
  rw [show List.range 2 = [0, 1] from by decide]
  rw [adjustLoop_cons_eq]
  rw [if_neg (by decide)]
  dsimp only
  rw [hdon]
  dsimp only
  have hrow : adjustRow (min ((([1, 3] : List Nat).getD 0 0 : Nat) : ℚ) kAdjustCentersWeight)
      ([[(0 : ℚ)], [10]].getD (([1, 0, 1, 1] : List Nat).getD 3 0) [])
      ([[(1 : ℚ)], [2], [3], [4]].getD 3 []) 1 = [7] := by
    norm_num [adjustRow, kAdjustCentersWeight]
    rw [show List.range 1 = [0] from rfl]
    norm_num
  rw [hrow]
  rw [show ([[(0 : ℚ)], [10]] : List (List ℚ)).set 0 [7] = [[7], [10]] from rfl]
  rw [adjustLoop_cons_eq]
  rw [if_pos (by decide)]
  rw [adjustLoop_nil_eq]
  rfl

/-- C5 counterexample: a starved cluster's new center is the weighted
average of the DONOR's cluster center and the donor row — no donor row
can produce the claimed formula built from the starved cluster's own
old center.  Here the claim's premises hold (threshold 1/2 ∈ [0,1),
cluster 0 of size 1 ≤ average·threshold = 1) and the actual new center
is `[7]`, while the claimed formula gives at most `(1·0 + 4)/2 = 2`. -/
theorem C5_counterexample :
    (0 : ℚ) ≤ 1 / 2 ∧ (1 / 2 : ℚ) < 1
    ∧ ((([1, 3] : List Nat).getD 0 0 : Nat) : ℚ) ≤ (((4 / 2 : Nat)) : ℚ) * (1 / 2)
    ∧ adjust_centers [[(0 : ℚ)], [10]] 2 1 [[1], [2], [3], [4]] 4 [1, 0, 1, 1] [1, 3]
        (1 / 2) 0 0 = some (⟨[[7], [10]], 3, true⟩, 1)
    ∧ ¬ ∃ d, d < 4 ∧
        ([[(7 : ℚ)], [10]] : List (List ℚ)).getD 0 []
          = adjustRow (min ((([1, 3] : List Nat).getD 0 0 : Nat) : ℚ) kAdjustCentersWeight)
              ([[(0 : ℚ)], [10]].getD 0 []) ([[(1 : ℚ)], [2], [3], [4]].getD d []) 1 := by
  refine ⟨by norm_num, by norm_num, by norm_num, adjust_centers_example, ?_⟩
  rintro ⟨d, hd, heq⟩
  have hr1 : List.range 1 = [0] := rfl
  interval_cases d <;>
    simp only [adjustRow, kAdjustCentersWeight, hr1] at heq <;>
    norm_num at heq

/-- C5 witness: the concrete run above satisfies all hypotheses of the
amended theorem, and its conclusions hold for both clusters. -/
theorem C5_witness :
    0 < 4 ∧ (0 : ℚ) ≤ 1 / 2 ∧ (1 / 2 : ℚ) < 1
    ∧ (∀ c, c < 2 → ([1, 3] : List Nat).getD c 0 = ([1, 0, 1, 1] : List Nat).count c)
    ∧ (∀ l, l < 2 →
        ((((4 / 2 : Nat) : ℚ) * (1 / 2) < (([1, 3] : List Nat).getD l 0 : ℚ) →
          (⟨[[(7 : ℚ)], [10]], 3, true⟩ : AdjustResult).centers.getD l []
            = [[(0 : ℚ)], [10]].getD l [])
        ∧ ((([1, 3] : List Nat).getD l 0 : ℚ) ≤ ((4 / 2 : Nat) : ℚ) * (1 / 2) →
          ∃ d, d < 4 ∧ 4 / 2 ≤ ([1, 3] : List Nat).getD (([1, 0, 1, 1] : List Nat).getD d 0) 0 ∧
            (⟨[[(7 : ℚ)], [10]], 3, true⟩ : AdjustResult).centers.getD l []
              = adjustRow (min ((([1, 3] : List Nat).getD l 0 : Nat) : ℚ) kAdjustCentersWeight)
                  ([[(0 : ℚ)], [10]].getD (([1, 0, 1, 1] : List Nat).getD d 0) [])
                  ([[(1 : ℚ)], [2], [3], [4]].getD d []) 1))) :=
  ⟨by decide, by norm_num, by norm_num, by decide,
    C5_adjust_centers_starved [[(0 : ℚ)], [10]] 2 1 [[1], [2], [3], [4]] 4 [1, 0, 1, 1]
      [1, 3] (1 / 2) 0 0 ⟨[[7], [10]], 3, true⟩ 1 (by decide) (by norm_num) (by norm_num)
      rfl (by decide) rfl (by decide) adjust_centers_example⟩

/-- Squared L2 norm of a row (the warp-reduced `sqsum` of
`normalize_rows_kernel`). -/
def sqsumRow (r : List ℚ) : ℚ := (r.map (fun x => x * x)).sum

/-- `normalize_rows` (ann_utils.cuh kernel): a row whose squared norm is
at most `1e-8` is left untouched (early return); any other row is
multiplied by the reciprocal square root of its squared norm
(`rsqrtf`).  Exact square roots leave ℚ, so the reciprocal square root
is an explicit parameter; a perfect `rsqrt` satisfies
`rsqrt s * (rsqrt s * s) = 1`. -/
def normalize_rows (rsqrt : ℚ → ℚ) (a : List (List ℚ)) : List (List ℚ) :=
  a.map (fun r =>
    let s := sqsumRow r
    if s ≤ 1 / 100000000 then r else r.map (fun x => x * rsqrt s))

/-- The similarity-oriented metrics for which `balancing_em_iters`
renormalizes the centers (switch cases with fall-through into
`normalize_rows`). -/
def isSimMetric (m : DistanceType) : Bool :=
  m = .InnerProduct || m = .CosineExpanded || m = .CorrelationExpanded

/-- One iteration body of the EM driver after the optional balancing
step: renormalize the centers for similarity metrics, predict labels
(E step), then recompute centers and sizes with `reset=true` (M step).
Returns the new centers, the labels and the sizes. -/
def emIteration (rsqrt : ℚ → ℚ) (metric : DistanceType) (n_clusters dim : Nat)
    (dataset : List (List ℚ)) (centers : List (List ℚ)) (sizes : List Nat) :
    Except String (List (List ℚ) × List Nat × List Nat) :=
  let centers1 := if isSimMetric metric then normalize_rows rsqrt centers else centers
  match predict metric centers1 dim dataset with
  | .error e => .error e
  | .ok labels =>
      let agg := calc_centers_and_sizes n_clusters dim centers1 sizes dataset labels true
      .ok (agg.centers, labels, agg.sizes)

lemma sqsumRow_smul : ∀ (r : List ℚ) (c : ℚ),
    sqsumRow (r.map (fun x => x * c)) = c * (c * sqsumRow r)
  | [], c => by simp [sqsumRow]
  | x :: xs, c => by
      have ih := sqsumRow_smul xs c
      simp only [sqsumRow, List.map_cons, List.sum_cons, List.map_map] at ih ⊢
      linear_combination ih

/-- C9 counterexample: inner product is a similarity metric, yet a zero
center row passes through the normalization step unchanged (the
`sqsum <= 1e-8` guard), so not every center row has unit L2 length at
the start of the iteration. -/
theorem C9_counterexample :
    isSimMetric .InnerProduct = true
    ∧ normalize_rows (fun s => 1 / s) [[0, 0]] = [[0, 0]]
    ∧ sqsumRow [0, 0] ≠ 1 := by
  refine ⟨rfl, ?_, ?_⟩
  · norm_num [normalize_rows, sqsumRow]
  · norm_num [sqsumRow]

/-- C9 (amended): for the similarity metrics (inner product, cosine,
correlation) the EM iteration feeds `normalize_rows rsqrt centers` to
the Predict step, and — for a perfect reciprocal square root on the rows
actually rescaled — every center row consumed by Predict either has
squared L2 norm exactly 1 or is an original row whose squared norm is
at most `1e-8` and was deliberately left unnormalized. -/
theorem C9_sim_metric_normalize (rsqrt : ℚ → ℚ) (metric : DistanceType)
    (n_clusters dim : Nat) (dataset centers : List (List ℚ)) (sizes : List Nat)
    (hsim : isSimMetric metric = true)
    (hrsqrt : ∀ r ∈ centers, ¬(sqsumRow r ≤ 1 / 100000000) →
      rsqrt (sqsumRow r) * (rsqrt (sqsumRow r) * sqsumRow r) = 1) :
    (∀ out, emIteration rsqrt metric n_clusters dim dataset centers sizes = .ok out →
      predict metric (normalize_rows rsqrt centers) dim dataset = .ok out.2.1)
    ∧ (∀ r ∈ normalize_rows rsqrt centers,
        sqsumRow r = 1 ∨ (r ∈ centers ∧ sqsumRow r ≤ 1 / 100000000)) := by
  constructor
  · intro out hout
    unfold emIteration at hout
    rw [if_pos hsim] at hout
    dsimp only at hout
    rcases hp : predict metric (normalize_rows rsqrt centers) dim dataset with e | labels
    · rw [hp] at hout
      simp at hout
    · rw [hp] at hout
      dsimp only at hout
      have := Except.ok.inj hout
      rw [← this]
  · intro r hr
    rcases List.mem_map.mp hr with ⟨r0, hr0, hmap⟩
    by_cases hg : sqsumRow r0 ≤ 1 / 100000000
    · right
      rw [← hmap]
      simp only [if_pos hg]
      exact ⟨hr0, hg⟩
    · left
      rw [← hmap]
      simp only [if_neg hg]
      rw [sqsumRow_smul r0 (rsqrt (sqsumRow r0))]
      exact hrsqrt r0 hr0 hg

/-- C9 witness: one center `[3, 4]` with squared norm 25; the perfect
reciprocal square root is `1/5`, and the normalized row `[3/5, 4/5]`
has unit squared norm. -/
theorem C9_witness :
    isSimMetric .InnerProduct = true
    ∧ (∀ r ∈ ([[(3 : ℚ), 4]] : List (List ℚ)), ¬(sqsumRow r ≤ 1 / 100000000) →
        (fun _ : ℚ => (1 : ℚ) / 5) (sqsumRow r)
          * ((fun _ : ℚ => (1 : ℚ) / 5) (sqsumRow r) * sqsumRow r) = 1)
    ∧ ((∀ out, emIteration (fun _ : ℚ => (1 : ℚ) / 5) .InnerProduct 1 2 [[1, 0]]
          [[(3 : ℚ), 4]] [0] = .ok out →
        predict .InnerProduct (normalize_rows (fun _ : ℚ => (1 : ℚ) / 5) [[(3 : ℚ), 4]])
          2 [[1, 0]] = .ok out.2.1)
      ∧ (∀ r ∈ normalize_rows (fun _ : ℚ => (1 : ℚ) / 5) [[(3 : ℚ), 4]],
          sqsumRow r = 1 ∨ (r ∈ ([[(3 : ℚ), 4]] : List (List ℚ))
            ∧ sqsumRow r ≤ 1 / 100000000))) :=
  ⟨rfl,
   by
    intro r hr hg
    simp only [List.mem_singleton] at hr
    subst hr
    norm_num [sqsumRow],
   C9_sim_metric_normalize (fun _ : ℚ => (1 : ℚ) / 5) .InnerProduct 1 2 [[1, 0]]
     [[(3 : ℚ), 4]] [0] rfl
     (by
       intro r hr hg
       simp only [List.mem_singleton] at hr
       subst hr
       norm_num [sqsumRow])⟩

end RaftKMeans
